import Mathlib

/-!
# Verification of the map-of-reddit geospatial-interaction core

Shallow embedding of `src/app/components/WorldMap.tsx` (and its wiring to
`InfoPanel.tsx`): the antimeridian continuity corrector `makeContinuous`,
the zoom-driven marker planner, and the selection state machine with
drawable-style synchronization.  Longitudes/latitudes are modelled as
rationals; drawable handles as naturals; the dataset as explicit lists.
-/

namespace MapOfReddit

/-! ## Data model

The dataset (countries with nested cities and optional places) is supplied
by an external data provider; the code reads fields `id`, `name`,
`subreddit`, `subscribers`, `coordinates`, `cities`, `places`. -/

structure PlaceSub where
  name : String
  subreddit : String
  subscribers : ℕ
  lon : ℚ
  lat : ℚ
  deriving DecidableEq, Repr

structure CitySub where
  name : String
  subreddit : String
  subscribers : ℕ
  lon : ℚ
  lat : ℚ
  places : Option (List PlaceSub)
  deriving DecidableEq, Repr

structure CountrySub where
  id : String
  name : String
  subreddit : String
  subscribers : ℕ
  cities : List CitySub
  deriving DecidableEq, Repr

/-- `countryMap.get(id)`: lookup of a country by its id in the dataset. -/
def countryMapGet (ds : List CountrySub) (id : String) : Option CountrySub :=
  ds.find? (fun c => c.id == id)

/-! ## GeometryContinuityCorrector (`makeContinuous`)

```js
function makeContinuous(ring) {
  if (ring.length < 2) return ring;
  const out = [ring[0]];
  let offset = 0;
  for (let i = 1; i < ring.length; i++) {
    const diff = ring[i][0] - ring[i - 1][0];
    if (diff > 180) offset -= 360;
    else if (diff < -180) offset += 360;
    out.push([ring[i][0] + offset, ring[i][1]]);
  }
  return out;
}
```
A point is a `(lon, lat)` pair. -/

abbrev Pt := ℚ × ℚ

/-- The loop body of `makeContinuous`: `prev` is the raw longitude of the
previous point `ring[i-1][0]`, `offset` the running offset. -/
def makeContinuousAux (prev offset : ℚ) : List Pt → List Pt
  | [] => []
  | p :: rest =>
    let diff := p.1 - prev
    let offset' :=
      if diff > 180 then offset - 360
      else if diff < -180 then offset + 360
      else offset
    (p.1 + offset', p.2) :: makeContinuousAux p.1 offset' rest

def makeContinuous (ring : List Pt) : List Pt :=
  if ring.length < 2 then ring
  else
    match ring with
    | [] => []
    | p :: rest => p :: makeContinuousAux p.1 0 rest

/-- The per-jump offset adjustment the spec describes: difference > 180 →
subtract 360 from the running offset; difference < −180 → add 360. -/
def stepAdj (d : ℚ) : ℚ :=
  if d > 180 then -360 else if d < -180 then 360 else 0

/-- Modelled from the spec: the running offset at point `i` of a ring with
longitude list `lons` is the accumulated sum of the adjustments for the raw
consecutive differences up to index `i` (0 at the first point). -/
def specOffsetAt (lons : List ℚ) : ℕ → ℚ
  | 0 => 0
  | i + 1 =>
    specOffsetAt lons i +
      match lons[i]?, lons[i + 1]? with
      | some a, some b => stepAdj (b - a)
      | _, _ => 0

/-- Modelled from the spec: keep the first point, add the running offset to
every subsequent point's longitude, never touch latitudes; rings of
length < 2 pass through unchanged. -/
def makeContinuousSpec (ring : List Pt) : List Pt :=
  if ring.length < 2 then ring
  else ring.mapIdx (fun i p => (p.1 + specOffsetAt (ring.map Prod.fst) i, p.2))

/-- The continuity relation between consecutive points of a ring. -/
def contStep (a b : Pt) : Prop := |b.1 - a.1| ≤ 180

instance : DecidablePred fun p : Pt × Pt => contStep p.1 p.2 := by
  intro p; unfold contStep; infer_instance

/-! ## LevelOfDetailMarkerPlanner (the marker-rebuild effect)

The effect reads `zoom` (an integer) and `selected`
(`{country, city, place}`, each possibly null) and rebuilds the city and
place marker groups from scratch.  `Math.log10` on the host's numbers is
abstracted as a parameter `lg : ℕ → ℚ`. -/

/-- The React `selected` state: `{ country, city, place }`. -/
structure SelState where
  country : Option CountrySub
  city : Option CitySub
  place : Option PlaceSub
  deriving DecidableEq, Repr

/-- A bound tooltip: either a `permanent: true` name label or the default
hover tooltip showing the community identifier. The source binds exactly
one of the two (an if/else). -/
inductive LabelMode where
  | permanent (text : String) : LabelMode
  | hoverOnly (text : String) : LabelMode
  deriving DecidableEq, Repr

/-- `labelMinSubs`: `zoom >= 10 ? 0 : zoom >= 8 ? 30000 : zoom >= 6 ?
100000 : Infinity`; `none` models `Infinity`. -/
def cityLabelMinSubs (z : ℤ) : Option ℕ :=
  if z ≥ 10 then some 0 else if z ≥ 8 then some 30000
  else if z ≥ 6 then some 100000 else none

/-- `placeLabelMin`: `zoom >= 14 ? 0 : zoom >= 12 ? 3000 : Infinity`. -/
def placeLabelMinSubs (z : ℤ) : Option ℕ :=
  if z ≥ 14 then some 0 else if z ≥ 12 then some 3000 else none

/-- `subscribers >= bound` where `bound` may be `Infinity` (`none`):
a finite subscriber count never reaches `Infinity`. -/
def meetsMin (subs : ℕ) : Option ℕ → Bool
  | some m => subs ≥ m
  | none => false

/-- `selected.city?.name === city.name && selected.country?.id ===
country.id` (JS optional chaining: null selection compares false). -/
def cityIsActive (sel : SelState) (country : CountrySub) (city : CitySub) : Bool :=
  (match sel.city with | some sc => sc.name == city.name | none => false) &&
  (match sel.country with | some c => c.id == country.id | none => false)

/-- `selected.place?.name === place.name && selected.city?.name ===
city.name` — note: the country is not compared. -/
def placeIsActive (sel : SelState) (city : CitySub) (place : PlaceSub) : Bool :=
  (match sel.place with | some sp => sp.name == place.name | none => false) &&
  (match sel.city with | some sc => sc.name == city.name | none => false)

structure CityMarker where
  country : CountrySub
  city : CitySub
  pos : ℚ × ℚ
  radius : ℚ
  fillColor : String
  fillOpacity : ℚ
  color : String
  weight : ℚ
  label : LabelMode
  deriving DecidableEq, Repr

structure PlaceMarker where
  country : CountrySub
  city : CitySub
  place : PlaceSub
  pos : ℚ × ℚ
  radius : ℚ
  fillColor : String
  fillOpacity : ℚ
  color : String
  weight : ℚ
  label : LabelMode
  deriving DecidableEq, Repr

/-- The city-marker baseline radius `Math.max(4, Math.log10(subscribers) * 2)`. -/
def cityBaseRadius (lg : ℕ → ℚ) (subs : ℕ) : ℚ := max 4 (lg subs * 2)

/-- The place-marker baseline radius
`Math.max(10, (Math.log10(subscribers) - 2) * 4)`. -/
def placeBaseRadius (lg : ℕ → ℚ) (subs : ℕ) : ℚ := max 10 ((lg subs - 2) * 4)

/-- One `L.circleMarker` for a city, with its click-owner recorded. -/
def mkCityMarker (lg : ℕ → ℚ) (z : ℤ) (sel : SelState)
    (country : CountrySub) (city : CitySub) : CityMarker :=
  let r := cityBaseRadius lg city.subscribers
  let isActive := cityIsActive sel country city
  { country := country, city := city,
    pos := (city.lat, city.lon),
    radius := if isActive then r + 3 else r,
    fillColor := if isActive then "#FFD700" else "#FF6B35",
    fillOpacity := 85/100,
    color := if isActive then "#fff" else "#FF8C00",
    weight := if isActive then 2 else 1,
    label :=
      if meetsMin city.subscribers (cityLabelMinSubs z) then .permanent city.name
      else .hoverOnly ("r/" ++ city.subreddit) }

/-- One `L.circleMarker` for a place. -/
def mkPlaceMarker (lg : ℕ → ℚ) (z : ℤ) (sel : SelState)
    (country : CountrySub) (city : CitySub) (place : PlaceSub) : PlaceMarker :=
  let r := placeBaseRadius lg place.subscribers
  let isActive := placeIsActive sel city place
  { country := country, city := city, place := place,
    pos := (place.lat, place.lon),
    radius := if isActive then r + 3 else r,
    fillColor := if isActive then "#e9d5ff" else "#c084fc",
    fillOpacity := 8/10,
    color := if isActive then "#fff" else "#a855f7",
    weight := if isActive then 2 else 1,
    label :=
      if meetsMin place.subscribers (placeLabelMinSubs z) then .permanent place.name
      else .hoverOnly ("r/" ++ place.subreddit) }

/-- The `if (zoom >= 4)` city loop: one marker per city of every country. -/
def buildCityMarkers (lg : ℕ → ℚ) (z : ℤ) (sel : SelState)
    (ds : List CountrySub) : List CityMarker :=
  if z ≥ 4 then
    ds.flatMap (fun country => country.cities.map (mkCityMarker lg z sel country))
  else []

/-- The `if (zoom >= 10)` place loop: cities with no declared `places`
are skipped (`if (!city.places) continue`). -/
def buildPlaceMarkers (lg : ℕ → ℚ) (z : ℤ) (sel : SelState)
    (ds : List CountrySub) : List PlaceMarker :=
  if z ≥ 10 then
    ds.flatMap (fun country =>
      country.cities.flatMap (fun city =>
        match city.places with
        | none => []
        | some ps => ps.map (mkPlaceMarker lg z sel country city)))
  else []

/-! ## SelectionStateMachine and StyleSynchronizer

Drawable handles (`L.Path` objects) are modelled as naturals; a drawable's
mutable style is the pair of the fields the handlers write
(`fillOpacity`, `weight`).  `layerOf` models the country-layer registry
(`countryLayersRef`): the path registered for a country id. -/

structure Style where
  fillOpacity : ℚ
  weight : ℚ
  deriving DecidableEq, Repr

/-- `{ fillOpacity: 0.08, weight: 1 }` — the default country style. -/
def defaultStyle : Style := ⟨8/100, 1⟩

/-- `{ fillOpacity: 0.2, weight: 2 }` — the selected-country style. -/
def highlightStyle : Style := ⟨2/10, 2⟩

/-- `{ fillOpacity: 0.3, weight: 1.5 }` — the hover style. -/
def hoverStyle : Style := ⟨3/10, 3/2⟩

structure MapState where
  sel : SelState
  selectedLayer : Option ℕ
  styles : ℕ → Style

/-- Initial state: nothing selected, no highlighted layer, every drawable
in its default style. -/
def initState : MapState := ⟨⟨none, none, none⟩, none, fun _ => defaultStyle⟩

/-- `actionsRef.current.selectCountry(id, layer)` where `layer` is the
drawable the click landed on, i.e. the registry entry for `id`. -/
def selectCountryOp (ds : List CountrySub) (layerOf : String → ℕ)
    (id : String) (s : MapState) : MapState :=
  match countryMapGet ds id with
  | none => s
  | some c =>
    let layer := layerOf id
    let styles1 :=
      match s.selectedLayer with
      | some l => if l ≠ layer then Function.update s.styles l defaultStyle else s.styles
      | none => s.styles
    { sel := ⟨some c, none, none⟩,
      selectedLayer := some layer,
      styles := Function.update styles1 layer highlightStyle }

/-- `actionsRef.current.selectCity(country, city)`: selection only, no
style change. -/
def selectCityOp (country : CountrySub) (city : CitySub) (s : MapState) : MapState :=
  { s with sel := ⟨some country, some city, none⟩ }

/-- `actionsRef.current.selectPlace(country, city, place)`. -/
def selectPlaceOp (country : CountrySub) (city : CitySub) (place : PlaceSub)
    (s : MapState) : MapState :=
  { s with sel := ⟨some country, some city, some place⟩ }

/-- `resetSelectedLayer`: restore the highlighted drawable's default style
and clear the stored reference. -/
def resetSelectedLayer (s : MapState) : MapState :=
  match s.selectedLayer with
  | some l => { s with styles := Function.update s.styles l defaultStyle,
                       selectedLayer := none }
  | none => s

/-- `handleBack`. -/
def handleBack (s : MapState) : MapState :=
  if s.sel.place.isSome then { s with sel := { s.sel with place := none } }
  else if s.sel.city.isSome then { s with sel := { s.sel with city := none, place := none } }
  else
    let s1 := resetSelectedLayer s
    { s1 with sel := ⟨none, none, none⟩ }

/-- `handleClose`. -/
def handleClose (s : MapState) : MapState :=
  let s1 := resetSelectedLayer s
  { s1 with sel := ⟨none, none, none⟩ }

/-- The path `mouseover` handler: hover style only when the path is not
the stored highlighted layer. -/
def hoverEnter (l : ℕ) (s : MapState) : MapState :=
  if s.selectedLayer = some l then s
  else { s with styles := Function.update s.styles l hoverStyle }

/-- The path `mouseout` handler. -/
def hoverExit (l : ℕ) (s : MapState) : MapState :=
  if s.selectedLayer = some l then s
  else { s with styles := Function.update s.styles l defaultStyle }

/-- The successive style maps a `selectCountry` call passes through, in
program order: before, after the old layer's reset, after the new layer's
highlight. -/
def selectCountryTrace (ds : List CountrySub) (layerOf : String → ℕ)
    (id : String) (s : MapState) : List (ℕ → Style) :=
  match countryMapGet ds id with
  | none => [s.styles]
  | some _ =>
    let layer := layerOf id
    match s.selectedLayer with
    | some l =>
      if l ≠ layer then
        [s.styles, Function.update s.styles l defaultStyle,
         Function.update (Function.update s.styles l defaultStyle) layer highlightStyle]
      else [s.styles, Function.update s.styles layer highlightStyle]
    | none => [s.styles, Function.update s.styles layer highlightStyle]

/-- The places list a city iterates over (`city.places`, absent → none). -/
def placesL (city : CitySub) : List PlaceSub := city.places.getD []

/-- States reachable through the country-level operations only:
`selectCountry` clicks, back, close, and drawable hover enter/exit. -/
inductive ReachSel (ds : List CountrySub) (layerOf : String → ℕ) : MapState → Prop where
  | init : ReachSel ds layerOf initState
  | country (id : String) {s : MapState} :
      ReachSel ds layerOf s → ReachSel ds layerOf (selectCountryOp ds layerOf id s)
  | back {s : MapState} : ReachSel ds layerOf s → ReachSel ds layerOf (handleBack s)
  | close {s : MapState} : ReachSel ds layerOf s → ReachSel ds layerOf (handleClose s)
  | hoverE (l : ℕ) {s : MapState} :
      ReachSel ds layerOf s → ReachSel ds layerOf (hoverEnter l s)
  | hoverX (l : ℕ) {s : MapState} :
      ReachSel ds layerOf s → ReachSel ds layerOf (hoverExit l s)

/-- States reachable through every UI operation: country clicks, city and
place marker clicks (whose closures carry the iteration's country/city),
panel clicks (whose closures carry the current selection and an item the
panel lists from it), back, close, escape (= back), hovers. -/
inductive Reach (ds : List CountrySub) (layerOf : String → ℕ) : MapState → Prop where
  | init : Reach ds layerOf initState
  | country (id : String) {s : MapState} :
      Reach ds layerOf s → Reach ds layerOf (selectCountryOp ds layerOf id s)
  | cityMarker {s : MapState} {c : CountrySub} {ci : CitySub} :
      Reach ds layerOf s → c ∈ ds → ci ∈ c.cities →
      Reach ds layerOf (selectCityOp c ci s)
  | placeMarker {s : MapState} {c : CountrySub} {ci : CitySub} {p : PlaceSub} :
      Reach ds layerOf s → c ∈ ds → ci ∈ c.cities → p ∈ placesL ci →
      Reach ds layerOf (selectPlaceOp c ci p s)
  | panelCity {s : MapState} {c : CountrySub} {ci : CitySub} :
      Reach ds layerOf s → s.sel.country = some c → ci ∈ c.cities →
      Reach ds layerOf (selectCityOp c ci s)
  | panelPlace {s : MapState} {c : CountrySub} {ci : CitySub} {p : PlaceSub} :
      Reach ds layerOf s → s.sel.country = some c → s.sel.city = some ci →
      p ∈ placesL ci → Reach ds layerOf (selectPlaceOp c ci p s)
  | back {s : MapState} : Reach ds layerOf s → Reach ds layerOf (handleBack s)
  | close {s : MapState} : Reach ds layerOf s → Reach ds layerOf (handleClose s)
  | hoverE (l : ℕ) {s : MapState} :
      Reach ds layerOf s → Reach ds layerOf (hoverEnter l s)
  | hoverX (l : ℕ) {s : MapState} :
      Reach ds layerOf s → Reach ds layerOf (hoverExit l s)

/-! ## Spec-side label-threshold conditions (for comparison with the code) -/

/-- Modelled from the spec: a city's label is permanent when zoom ≥ 10,
when zoom ∈ [8,10) and subscribers ≥ 30000, or when zoom ∈ [6,8) and
subscribers ≥ 100000; unattainable below 6. -/
def cityLabelCond (z : ℤ) (subs : ℕ) : Prop :=
  10 ≤ z ∨ (8 ≤ z ∧ z < 10 ∧ 30000 ≤ subs) ∨ (6 ≤ z ∧ z < 8 ∧ 100000 ≤ subs)

/-- Modelled from the spec: a place's label is permanent when zoom ≥ 14
or when zoom ∈ [12,14) and subscribers ≥ 3000; unattainable below 12. -/
def placeLabelCond (z : ℤ) (subs : ℕ) : Prop :=
  14 ≤ z ∨ (12 ≤ z ∧ z < 14 ∧ 3000 ≤ subs)

/-- The owning pairs of the city markers the spec predicts at zoom `z`. -/
def specCityOwners (z : ℤ) (ds : List CountrySub) : List (CountrySub × CitySub) :=
  if z ≥ 4 then ds.flatMap (fun c => c.cities.map (fun ci => (c, ci))) else []

/-- The owning triples of the place markers the spec predicts at zoom `z`:
one per place of every city that declares places, when `z ≥ 10`. -/
def specPlaceOwners (z : ℤ) (ds : List CountrySub) :
    List (CountrySub × CitySub × PlaceSub) :=
  if z ≥ 10 then
    ds.flatMap (fun c => c.cities.flatMap (fun ci =>
      match ci.places with
      | none => []
      | some ps => ps.map (fun p => (c, ci, p))))
  else []

/-! ## Concrete fixtures

A small dataset with two countries that both contain a city named
"Springfield" holding a place named "Oldtown" — legal data, since the
dataset only requires identifiers to be unique within one parent. -/

def placeA : PlaceSub := ⟨"Oldtown", "oldtownX", 5000, 1, 2⟩

def placeB : PlaceSub := ⟨"Oldtown", "oldtownY", 7000, 3, 4⟩

def cityA : CitySub := ⟨"Springfield", "springfieldX", 40000, 1, 2, some [placeA]⟩

def cityB : CitySub := ⟨"Springfield", "springfieldY", 50000, 3, 4, some [placeB]⟩

def countryA : CountrySub := ⟨"1", "Aland", "alandsub", 100000, [cityA]⟩

def countryB : CountrySub := ⟨"2", "Bland", "blandsub", 200000, [cityB]⟩

def dsAB : List CountrySub := [countryA, countryB]

/-- The selection state after drilling into `placeA`. -/
def selPlaceA : SelState := ⟨some countryA, some cityA, some placeA⟩

/-- A map state with `placeA` selected and `countryA`'s drawable (handle 7)
highlighted. -/
def stPlaceA : MapState :=
  ⟨selPlaceA, some 7, fun l => if l = 7 then highlightStyle else defaultStyle⟩

/-! ## Theorems: GeometryContinuityCorrector -/

theorem offset_step (d off : ℚ) :
    (if d > 180 then off - 360 else if d < -180 then off + 360 else off) = off + stepAdj d := by
  unfold stepAdj; split_ifs <;> ring

theorem specOffsetAt_zero (lons : List ℚ) : specOffsetAt lons 0 = 0 := rfl

theorem specOffsetAt_cons (a b : ℚ) (l : List ℚ) (i : ℕ) :
    specOffsetAt (a :: b :: l) (i + 1) = stepAdj (b - a) + specOffsetAt (b :: l) i := by
  induction i with
  | zero => simp [specOffsetAt]
  | succ i ih =>
    rw [specOffsetAt, ih, specOffsetAt]
    simp only [List.getElem?_cons_succ]
    rw [add_assoc]

theorem aux_eq_mapIdx (rest : List Pt) (prev off : ℚ) :
    makeContinuousAux prev off rest =
      rest.mapIdx (fun i p =>
        (p.1 + (off + specOffsetAt (prev :: rest.map Prod.fst) (i + 1)), p.2)) := by
  induction rest generalizing prev off with
  | nil => simp [makeContinuousAux]
  | cons p t ih =>
    rw [makeContinuousAux, List.mapIdx_cons]
    simp only [List.map_cons, offset_step, ih, specOffsetAt_cons, specOffsetAt_zero,
      add_zero]
    simp only [add_assoc]

theorem makeContinuous_eq_spec (ring : List Pt) :
    makeContinuous ring = makeContinuousSpec ring := by
  match ring with
  | [] => rfl
  | [p] => rfl
  | p :: q :: t =>
    rw [makeContinuous, makeContinuousSpec]
    have hlen : ¬ (p :: q :: t).length < 2 := by simp
    obtain ⟨px, py⟩ := p
    rw [if_neg hlen, if_neg hlen, aux_eq_mapIdx]
    simp only [List.mapIdx_cons, List.map_cons, specOffsetAt_zero, specOffsetAt_cons,
      add_zero, zero_add]

theorem aux_map_snd (rest : List Pt) (prev off : ℚ) :
    (makeContinuousAux prev off rest).map Prod.snd = rest.map Prod.snd := by
  induction rest generalizing prev off with
  | nil => rfl
  | cons p t ih => rw [makeContinuousAux]; simp [ih]

theorem aux_length (rest : List Pt) (prev off : ℚ) :
    (makeContinuousAux prev off rest).length = rest.length := by
  induction rest generalizing prev off with
  | nil => rfl
  | cons p t ih => rw [makeContinuousAux]; simp [ih]

theorem makeContinuous_map_snd (ring : List Pt) :
    (makeContinuous ring).map Prod.snd = ring.map Prod.snd := by
  match ring with
  | [] => rfl
  | [p] => rfl
  | p :: q :: t =>
    rw [makeContinuous, if_neg (by simp)]
    simp [aux_map_snd]

theorem makeContinuous_length (ring : List Pt) :
    (makeContinuous ring).length = ring.length := by
  match ring with
  | [] => rfl
  | [p] => rfl
  | p :: q :: t =>
    rw [makeContinuous, if_neg (by simp)]
    simp [aux_length]

theorem makeContinuous_head? (ring : List Pt) :
    (makeContinuous ring).head? = ring.head? := by
  match ring with
  | [] => rfl
  | [p] => rfl
  | p :: q :: t => rw [makeContinuous, if_neg (by simp)]; rfl

theorem adj_jump_bounded (d : ℚ) (h1 : -360 ≤ d) (h2 : d ≤ 360) :
    |d + stepAdj d| ≤ 180 := by
  unfold stepAdj
  rw [abs_le]
  split_ifs <;> constructor <;> linarith

theorem aux_chain (rest : List Pt) (prev off : ℚ)
    (hb : ∀ q ∈ rest, -180 ≤ q.1 ∧ q.1 ≤ 180)
    (hp1 : -180 ≤ prev) (hp2 : prev ≤ 180)
    (x : Pt) (hx : x.1 = prev + off) :
    List.Chain contStep x (makeContinuousAux prev off rest) := by
  induction rest generalizing prev off x with
  | nil => exact List.Chain.nil
  | cons p t ih =>
    rw [makeContinuousAux]
    simp only [offset_step]
    have hpb := hb p (List.mem_cons_self p t)
    refine List.Chain.cons ?_ ?_
    · unfold contStep
      have e : ((p.1 + (off + stepAdj (p.1 - prev)), p.2) : Pt).1 - x.1
          = (p.1 - prev) + stepAdj (p.1 - prev) := by rw [hx]; ring
      rw [e]
      exact adj_jump_bounded _ (by linarith [hpb.1, hpb.2]) (by linarith [hpb.1, hpb.2])
    · exact ih p.1 (off + stepAdj (p.1 - prev))
        (fun q hq => hb q (List.mem_cons_of_mem _ hq)) hpb.1 hpb.2 _ rfl

/-- C1 (amended): for any input ring all of whose longitudes lie in
[-180, 180], every pair of consecutive points of the ring returned by
`makeContinuous` has longitudes differing by at most 180 in absolute
value.  (The unconditional form of the claim is refuted by
`makeContinuous_continuity_cex`.) -/
theorem makeContinuous_chain_of_bounded (ring : List Pt)
    (hb : ∀ q ∈ ring, -180 ≤ q.1 ∧ q.1 ≤ 180) :
    List.Chain' contStep (makeContinuous ring) := by
  match ring with
  | [] => simp [makeContinuous]
  | [p] => simp [makeContinuous]
  | p :: q :: t =>
    rw [makeContinuous, if_neg (by simp)]
    exact aux_chain (q :: t) p.1 0
      (fun r hr => hb r (List.mem_cons_of_mem _ hr))
      (hb p (by simp)).1 (hb p (by simp)).2 p (by ring)

/-- C1 witness: the antimeridian ring of Scenario A satisfies the
continuity invariant after correction. -/
theorem makeContinuous_chain_witness :
    List.Chain' contStep (makeContinuous [(170, 10), (-170, 10), (170, -10)]) :=
  makeContinuous_chain_of_bounded [(170, 10), (-170, 10), (170, -10)] (by norm_num)

/-- C1 counterexample: with an input longitude outside [-180, 180] the
corrected ring can still jump by more than 180: the ring
[(0,0), (600,0)] is corrected to [(0,0), (240,0)], whose single
consecutive difference is 240 > 180.  The claim is false without the
precondition. -/
theorem makeContinuous_continuity_cex :
    makeContinuous [((0 : ℚ), (0 : ℚ)), (600, 0)] = [(0, 0), (240, 0)] ∧
    ¬ List.Chain' contStep (makeContinuous [((0 : ℚ), (0 : ℚ)), (600, 0)]) := by
  have h : makeContinuous [((0 : ℚ), (0 : ℚ)), (600, 0)] = [(0, 0), (240, 0)] := by
    norm_num [makeContinuous, makeContinuousAux]
  refine ⟨h, ?_⟩
  rw [h]
  simp only [List.chain'_cons, List.chain'_singleton, and_true]
  unfold contStep
  norm_num

/-- C2: `makeContinuous` equals the reference definition
`makeContinuousSpec` (first point kept, running offset of ±360
accumulated over raw consecutive differences and added to every
subsequent longitude); it preserves length and latitudes and the first
point, returns rings of length < 2 unchanged, and corrects Scenario A's
ring [[170,10],[-170,10],[170,-10]] to [[170,10],[190,10],[170,-10]]. -/
theorem makeContinuous_refines_spec (ring : List Pt) :
    makeContinuous ring = makeContinuousSpec ring ∧
    (makeContinuous ring).length = ring.length ∧
    (makeContinuous ring).map Prod.snd = ring.map Prod.snd ∧
    (makeContinuous ring).head? = ring.head? ∧
    (ring.length < 2 → makeContinuous ring = ring) ∧
    makeContinuous [(170, 10), (-170, 10), (170, -10)] = [(170, 10), (190, 10), (170, -10)] :=
  ⟨makeContinuous_eq_spec ring, makeContinuous_length ring, makeContinuous_map_snd ring,
   makeContinuous_head? ring, fun h => by rw [makeContinuous.eq_def, if_pos h],
   by norm_num [makeContinuous, makeContinuousAux]⟩

/-- C2 witness: the theorem applied to a concrete one-point ring, the
short-ring hypothesis discharged there. -/
theorem makeContinuous_refines_spec_witness :
    makeContinuous [((3 : ℚ), (4 : ℚ))] = [((3 : ℚ), (4 : ℚ))] :=
  (makeContinuous_refines_spec [((3 : ℚ), (4 : ℚ))]).2.2.2.2.1 (by norm_num)

/-! ## Theorems: LevelOfDetailMarkerPlanner -/

theorem meetsMin_city_iff (z : ℤ) (subs : ℕ) :
    meetsMin subs (cityLabelMinSubs z) = true ↔ cityLabelCond z subs := by
  unfold cityLabelMinSubs cityLabelCond
  split_ifs with h1 h2 h3 <;> simp [meetsMin] <;> omega

theorem meetsMin_place_iff (z : ℤ) (subs : ℕ) :
    meetsMin subs (placeLabelMinSubs z) = true ↔ placeLabelCond z subs := by
  unfold placeLabelMinSubs placeLabelCond
  split_ifs with h1 h2 <;> simp [meetsMin] <;> omega

theorem mem_buildCityMarkers {lg : ℕ → ℚ} {z : ℤ} {sel : SelState}
    {ds : List CountrySub} {m : CityMarker} (hm : m ∈ buildCityMarkers lg z sel ds) :
    ∃ c ∈ ds, ∃ ci ∈ c.cities, m = mkCityMarker lg z sel c ci := by
  rw [buildCityMarkers] at hm
  by_cases h4 : z ≥ 4
  · rw [if_pos h4, List.mem_flatMap] at hm
    obtain ⟨c, hc, hmc⟩ := hm
    rw [List.mem_map] at hmc
    obtain ⟨ci, hci, hmm⟩ := hmc
    exact ⟨c, hc, ci, hci, hmm.symm⟩
  · rw [if_neg h4] at hm
    exact absurd hm (List.not_mem_nil m)

theorem mem_buildPlaceMarkers {lg : ℕ → ℚ} {z : ℤ} {sel : SelState}
    {ds : List CountrySub} {m : PlaceMarker} (hm : m ∈ buildPlaceMarkers lg z sel ds) :
    ∃ c ∈ ds, ∃ ci ∈ c.cities, ∃ ps, ci.places = some ps ∧
      ∃ p ∈ ps, m = mkPlaceMarker lg z sel c ci p := by
  rw [buildPlaceMarkers] at hm
  by_cases h10 : z ≥ 10
  · rw [if_pos h10, List.mem_flatMap] at hm
    obtain ⟨c, hc, hmc⟩ := hm
    rw [List.mem_flatMap] at hmc
    obtain ⟨ci, hci, hmm⟩ := hmc
    cases hp : ci.places with
    | none => rw [hp] at hmm; exact absurd hmm (List.not_mem_nil m)
    | some ps =>
      rw [hp, List.mem_map] at hmm
      obtain ⟨p, hpp, hmp⟩ := hmm
      exact ⟨c, hc, ci, hci, ps, hp, p, hpp, hmp.symm⟩
  · rw [if_neg h10] at hm
    exact absurd hm (List.not_mem_nil m)

/-- C3: for every zoom, selection, dataset and radius primitive, the marker
plan is exactly one marker per city iff zoom ≥ 4 and one per place of a
places-declaring city iff zoom ≥ 10 (in dataset order); a city marker's
label is the permanent name label iff the city's subscribers reach the
claimed city threshold at that zoom, and otherwise it is the hover-only
community-identifier label, mutually exclusively; likewise for place
markers with the place thresholds. -/
theorem markerPlan_lod (lg : ℕ → ℚ) (z : ℤ) (sel : SelState) (ds : List CountrySub) :
    (buildCityMarkers lg z sel ds).map (fun m => (m.country, m.city)) = specCityOwners z ds ∧
    (buildPlaceMarkers lg z sel ds).map (fun m => (m.country, m.city, m.place))
      = specPlaceOwners z ds ∧
    (∀ m ∈ buildCityMarkers lg z sel ds,
      (m.label = LabelMode.permanent m.city.name ↔ cityLabelCond z m.city.subscribers) ∧
      (m.label = LabelMode.hoverOnly ("r/" ++ m.city.subreddit) ↔
        ¬ cityLabelCond z m.city.subscribers)) ∧
    (∀ m ∈ buildPlaceMarkers lg z sel ds,
      (m.label = LabelMode.permanent m.place.name ↔ placeLabelCond z m.place.subscribers) ∧
      (m.label = LabelMode.hoverOnly ("r/" ++ m.place.subreddit) ↔
        ¬ placeLabelCond z m.place.subscribers)) := by
  refine ⟨?_, ?_, ?_, ?_⟩
  · rw [buildCityMarkers, specCityOwners]
    by_cases h4 : z ≥ 4
    · rw [if_pos h4, if_pos h4, List.map_flatMap]
      exact List.flatMap_congr (fun c _ => by rw [List.map_map]; rfl)
    · rw [if_neg h4, if_neg h4]; rfl
  · rw [buildPlaceMarkers, specPlaceOwners]
    by_cases h10 : z ≥ 10
    · rw [if_pos h10, if_pos h10, List.map_flatMap]
      refine List.flatMap_congr (fun c _ => ?_)
      rw [List.map_flatMap]
      refine List.flatMap_congr (fun ci _ => ?_)
      cases ci.places with
      | none => rfl
      | some ps => rw [List.map_map]; rfl
    · rw [if_neg h10, if_neg h10]; rfl
  · intro m hm
    obtain ⟨c, _, ci, _, rfl⟩ := mem_buildCityMarkers hm
    have hcity : (mkCityMarker lg z sel c ci).city = ci := rfl
    have hlab : (mkCityMarker lg z sel c ci).label
        = if meetsMin ci.subscribers (cityLabelMinSubs z) then LabelMode.permanent ci.name
          else LabelMode.hoverOnly ("r/" ++ ci.subreddit) := rfl
    rw [hcity, hlab, ← meetsMin_city_iff]
    by_cases hm2 : meetsMin ci.subscribers (cityLabelMinSubs z) = true
    · simp [hm2]
    · simp [hm2]
  · intro m hm
    obtain ⟨c, _, ci, _, ps, _, p, _, rfl⟩ := mem_buildPlaceMarkers hm
    have hplace : (mkPlaceMarker lg z sel c ci p).place = p := rfl
    have hlab : (mkPlaceMarker lg z sel c ci p).label
        = if meetsMin p.subscribers (placeLabelMinSubs z) then LabelMode.permanent p.name
          else LabelMode.hoverOnly ("r/" ++ p.subreddit) := rfl
    rw [hplace, hlab, ← meetsMin_place_iff]
    by_cases hm2 : meetsMin p.subscribers (placeLabelMinSubs z) = true
    · simp [hm2]
    · simp [hm2]

/-- C7 (amended): a marker carries the enlarged radius (baseline + 3) and
the highlight fill/stroke iff its activity predicate holds, which matches
by city name and country id for city markers, and by place name and
owning-city name only for place markers (the owning country is not
compared); every inactive marker gets the baseline radius and the normal
colors. -/
theorem marker_highlight_matching (lg : ℕ → ℚ) (z : ℤ) (sel : SelState)
    (ds : List CountrySub) :
    (∀ m ∈ buildCityMarkers lg z sel ds,
      (cityIsActive sel m.country m.city = true →
        m.radius = cityBaseRadius lg m.city.subscribers + 3 ∧
        m.fillColor = "#FFD700" ∧ m.color = "#fff" ∧ m.weight = 2) ∧
      (cityIsActive sel m.country m.city = false →
        m.radius = cityBaseRadius lg m.city.subscribers ∧
        m.fillColor = "#FF6B35" ∧ m.color = "#FF8C00" ∧ m.weight = 1)) ∧
    (∀ m ∈ buildPlaceMarkers lg z sel ds,
      (placeIsActive sel m.city m.place = true →
        m.radius = placeBaseRadius lg m.place.subscribers + 3 ∧
        m.fillColor = "#e9d5ff" ∧ m.color = "#fff" ∧ m.weight = 2) ∧
      (placeIsActive sel m.city m.place = false →
        m.radius = placeBaseRadius lg m.place.subscribers ∧
        m.fillColor = "#c084fc" ∧ m.color = "#a855f7" ∧ m.weight = 1)) := by
  constructor
  · intro m hm
    obtain ⟨c, _, ci, _, rfl⟩ := mem_buildCityMarkers hm
    refine ⟨fun h => ?_, fun h => ?_⟩
    · simp [mkCityMarker, show cityIsActive sel c ci = true from h]
    · simp [mkCityMarker, show cityIsActive sel c ci = false from h]
  · intro m hm
    obtain ⟨c, _, ci, _, ps, _, p, _, rfl⟩ := mem_buildPlaceMarkers hm
    refine ⟨fun h => ?_, fun h => ?_⟩
    · simp [mkPlaceMarker, show placeIsActive sel ci p = true from h]
    · simp [mkPlaceMarker, show placeIsActive sel ci p = false from h]

/-- C7 counterexample: with `placeA` (under `cityA` of `countryA`)
selected, the plan at zoom 12 also draws the marker owned by the distinct
triple (`countryB`, `cityB`, `placeB`) with the enlarged radius
13 = baseline 10 + 3 and the highlight fill "#e9d5ff", because the place
match compares only place and city names, never the country: matching is
not by identity of the owning entity. -/
theorem marker_highlight_country_blind_cex :
    ((buildPlaceMarkers (fun _ => 0) 12 selPlaceA dsAB).map
        (fun m => (m.country, m.city, m.place)))
      = [(countryA, cityA, placeA), (countryB, cityB, placeB)] ∧
    ((buildPlaceMarkers (fun _ => 0) 12 selPlaceA dsAB).map
        (fun m => (m.radius, m.fillColor)))
      = [(13, "#e9d5ff"), (13, "#e9d5ff")] ∧
    placeBaseRadius (fun _ => 0) placeB.subscribers = 10 ∧
    (countryB, cityB, placeB) ≠ (countryA, cityA, placeA) := by
  refine ⟨?_, ?_, ?_, ?_⟩
  · simp [buildPlaceMarkers, dsAB, countryA, countryB, cityA, cityB, mkPlaceMarker]
  · simp [buildPlaceMarkers, dsAB, countryA, countryB, cityA, cityB, mkPlaceMarker,
      placeIsActive, selPlaceA, placeA, placeB, placeBaseRadius]
    norm_num [max_eq_left]
  · show max (10:ℚ) ((0 - 2) * 4) = 10
    norm_num [max_eq_left]
  · simp [countryA, countryB, cityA, cityB, placeA, placeB]

/-! ## Theorems: SelectionStateMachine and StyleSynchronizer -/

/-- C9: `selectCountry` with an id absent from the country dataset is a
complete no-op: the returned state is the argument state, so the
selection, the stored highlighted-layer reference and every drawable's
style are unchanged (in particular the previously highlighted drawable
keeps its highlight); as a total function it raises no error. -/
theorem selectCountry_unknown_noop (ds : List CountrySub) (layerOf : String → ℕ)
    (id : String) (s : MapState) (h : countryMapGet ds id = none) :
    selectCountryOp ds layerOf id s = s := by
  unfold selectCountryOp
  rw [h]

/-- C9 witness: an unknown id leaves a state with a selected, highlighted
country untouched. -/
theorem selectCountry_unknown_noop_witness :
    selectCountryOp dsAB (fun _ => 0) "99" stPlaceA = stPlaceA :=
  selectCountry_unknown_noop dsAB (fun _ => 0) "99" stPlaceA rfl

/-- C10: the None state (no selection, no stored highlighted layer) is a
fixpoint of both back() and close(), whatever the drawable styles are, and
close() is idempotent from every state. -/
theorem none_state_fixpoints :
    (∀ st : ℕ → Style,
      handleBack ⟨⟨none, none, none⟩, none, st⟩ = ⟨⟨none, none, none⟩, none, st⟩) ∧
    (∀ st : ℕ → Style,
      handleClose ⟨⟨none, none, none⟩, none, st⟩ = ⟨⟨none, none, none⟩, none, st⟩) ∧
    (∀ s : MapState, handleClose (handleClose s) = handleClose s) := by
  refine ⟨fun st => rfl, fun st => rfl, fun s => ?_⟩
  obtain ⟨sel0, slay, st⟩ := s
  cases slay <;> rfl

/-- C6: back() un-nests exactly one level: with a place selected it drops
only the place; with a city but no place it drops the city (and place),
keeping the country; with neither it clears the whole selection, restores
the highlighted drawable's default style and clears the stored
highlighted-layer reference. -/
theorem handleBack_one_level (s : MapState) :
    (s.sel.place.isSome = true →
      handleBack s = { s with sel := { s.sel with place := none } }) ∧
    (s.sel.place = none → s.sel.city.isSome = true →
      handleBack s = { s with sel := { s.sel with city := none, place := none } }) ∧
    (s.sel.place = none → s.sel.city = none →
      handleBack s = ⟨⟨none, none, none⟩, none,
        match s.selectedLayer with
        | some l => Function.update s.styles l defaultStyle
        | none => s.styles⟩) := by
  obtain ⟨⟨c0, ci0, p0⟩, slay, st⟩ := s
  refine ⟨fun hp => ?_, fun hp hc => ?_, fun hp hc => ?_⟩
  · unfold handleBack
    simp only [hp, if_true]
  · simp only at hp hc
    subst hp
    unfold handleBack
    simp [hc]
  · simp only at hp hc
    subst hp; subst hc
    unfold handleBack resetSelectedLayer
    cases slay <;> rfl

/-- C5 counterexample: from the state `stPlaceA` (a place selected, the
country drawable highlighted), two invocations of back() do not reach the
None selection: the country is still selected, the stored layer reference
is still set and the drawable is still highlighted. -/
theorem back_twice_not_none_cex :
    (handleBack (handleBack stPlaceA)).sel.country = some countryA ∧
    (handleBack (handleBack stPlaceA)).selectedLayer = some 7 ∧
    (handleBack (handleBack stPlaceA)).styles 7 = highlightStyle := by
  refine ⟨rfl, rfl, rfl⟩

/-- C5 (amended): from a state with a place (and its city) selected, back()
twice yields the CountrySelected state — city and place cleared, country,
stored layer and styles untouched; a third back() clears the country and
unhighlights the drawable, on that third call only. -/
theorem back_thrice_from_place (s : MapState) (p : PlaceSub)
    (hp : s.sel.place = some p) (ci : CitySub) (hci : s.sel.city = some ci) :
    (handleBack (handleBack s)).sel.country = s.sel.country ∧
    (handleBack (handleBack s)).sel.city = none ∧
    (handleBack (handleBack s)).sel.place = none ∧
    (handleBack (handleBack s)).selectedLayer = s.selectedLayer ∧
    (handleBack (handleBack s)).styles = s.styles ∧
    (handleBack (handleBack (handleBack s))).sel = ⟨none, none, none⟩ ∧
    (handleBack (handleBack (handleBack s))).selectedLayer = none ∧
    (handleBack (handleBack (handleBack s))).styles = (resetSelectedLayer s).styles := by
  obtain ⟨⟨c0, ci0, p0⟩, slay, st⟩ := s
  simp only at hp hci
  subst hp; subst hci
  unfold handleBack resetSelectedLayer
  cases slay <;> simp

/-- C5 witness: the amended behaviour at the concrete state `stPlaceA`. -/
theorem back_thrice_from_place_witness :
    (handleBack (handleBack stPlaceA)).sel.country = stPlaceA.sel.country ∧
    (handleBack (handleBack stPlaceA)).sel.city = none ∧
    (handleBack (handleBack stPlaceA)).sel.place = none ∧
    (handleBack (handleBack stPlaceA)).selectedLayer = stPlaceA.selectedLayer ∧
    (handleBack (handleBack stPlaceA)).styles = stPlaceA.styles ∧
    (handleBack (handleBack (handleBack stPlaceA))).sel = ⟨none, none, none⟩ ∧
    (handleBack (handleBack (handleBack stPlaceA))).selectedLayer = none ∧
    (handleBack (handleBack (handleBack stPlaceA))).styles = (resetSelectedLayer stPlaceA).styles :=
  back_thrice_from_place stPlaceA placeA rfl cityA rfl

theorem hoverEnter_sel (l : ℕ) (s : MapState) : (hoverEnter l s).sel = s.sel := by
  unfold hoverEnter; split_ifs <;> rfl

theorem hoverExit_sel (l : ℕ) (s : MapState) : (hoverExit l s).sel = s.sel := by
  unfold hoverExit; split_ifs <;> rfl

theorem countryMapGet_mem {ds : List CountrySub} {id : String} {c : CountrySub}
    (h : countryMapGet ds id = some c) : c ∈ ds ∧ c.id = id := by
  refine ⟨List.mem_of_find?_eq_some h, ?_⟩
  have := List.find?_some h
  simpa using this

theorem selectCountryOp_not_found {ds : List CountrySub} {layerOf : String → ℕ}
    {id : String} {s : MapState} (hfind : countryMapGet ds id = none) :
    selectCountryOp ds layerOf id s = s := by
  unfold selectCountryOp; rw [hfind]

theorem selectCountryOp_found {ds : List CountrySub} (layerOf : String → ℕ)
    {id : String} (s : MapState) {c : CountrySub}
    (hfind : countryMapGet ds id = some c) :
    (selectCountryOp ds layerOf id s).sel = ⟨some c, none, none⟩ := by
  unfold selectCountryOp; rw [hfind]

theorem handleBack_of_place {s : MapState} {p : PlaceSub} (hp : s.sel.place = some p) :
    (handleBack s).sel = ⟨s.sel.country, s.sel.city, none⟩ ∧
    (handleBack s).selectedLayer = s.selectedLayer ∧
    (handleBack s).styles = s.styles := by
  obtain ⟨⟨c0, ci0, p0⟩, slay, st⟩ := s
  simp only at hp
  subst hp
  unfold handleBack
  simp

theorem handleBack_of_city {s : MapState} {ci : CitySub}
    (hp : s.sel.place = none) (hci : s.sel.city = some ci) :
    (handleBack s).sel = ⟨s.sel.country, none, none⟩ ∧
    (handleBack s).selectedLayer = s.selectedLayer ∧
    (handleBack s).styles = s.styles := by
  obtain ⟨⟨c0, ci0, p0⟩, slay, st⟩ := s
  simp only at hp hci
  subst hp
  subst hci
  unfold handleBack
  simp

theorem handleBack_of_country {s : MapState}
    (hp : s.sel.place = none) (hci : s.sel.city = none) :
    handleBack s = handleClose s := by
  obtain ⟨⟨c0, ci0, p0⟩, slay, st⟩ := s
  simp only at hp hci
  subst hp
  subst hci
  unfold handleBack handleClose
  simp

theorem handleClose_fields (s : MapState) :
    (handleClose s).sel = ⟨none, none, none⟩ ∧
    (handleClose s).selectedLayer = none ∧
    (handleClose s).styles = (resetSelectedLayer s).styles := by
  obtain ⟨sel0, slay, st⟩ := s
  cases slay <;> simp [handleClose, resetSelectedLayer]

/-- C8: in every reachable state, a selected place's stored city and
country are dataset parents of that place (the city a member of the
country's cities, the place a member of the city's places), and a selected
city's stored country is its dataset parent; no reachable operation can
install a child selection under a non-parent ancestor. -/
theorem selection_nested (ds : List CountrySub) (layerOf : String → ℕ)
    (s : MapState) (h : Reach ds layerOf s) :
    (∀ c, s.sel.country = some c → c ∈ ds) ∧
    (∀ ci, s.sel.city = some ci → ∃ c, s.sel.country = some c ∧ ci ∈ c.cities) ∧
    (∀ p, s.sel.place = some p →
      ∃ c ci, s.sel.country = some c ∧ s.sel.city = some ci ∧
        ci ∈ c.cities ∧ p ∈ placesL ci) := by
  induction h with
  | init =>
    refine ⟨fun c hc => ?_, fun ci hci => ?_, fun p hp => ?_⟩
    · simp [initState] at hc
    · simp [initState] at hci
    · simp [initState] at hp
  | country id h ih =>
    rename_i s
    rcases hfind : countryMapGet ds id with _ | c
    · rw [selectCountryOp_not_found hfind]
      exact ih
    · have hsel := selectCountryOp_found layerOf s hfind
      refine ⟨fun c' hc' => ?_, fun ci hci => ?_, fun p hp => ?_⟩
      · rw [hsel] at hc'
        obtain rfl := Option.some.inj hc'
        exact (countryMapGet_mem hfind).1
      · rw [hsel] at hci
        exact absurd hci (by simp)
      · rw [hsel] at hp
        exact absurd hp (by simp)
  | cityMarker h hc hci ih =>
    refine ⟨fun c' hc' => ?_, fun ci' hci' => ?_, fun p hp => ?_⟩
    · obtain rfl := Option.some.inj hc'
      exact hc
    · obtain rfl := Option.some.inj hci'
      exact ⟨_, rfl, hci⟩
    · exact absurd hp (by simp [selectCityOp])
  | placeMarker h hc hci hp ih =>
    refine ⟨fun c' hc' => ?_, fun ci' hci' => ?_, fun p' hp' => ?_⟩
    · obtain rfl := Option.some.inj hc'
      exact hc
    · obtain rfl := Option.some.inj hci'
      exact ⟨_, rfl, hci⟩
    · obtain rfl := Option.some.inj hp'
      exact ⟨_, _, rfl, rfl, hci, hp⟩
  | panelCity h hsel hci ih =>
    have hc := ih.1 _ hsel
    refine ⟨fun c' hc' => ?_, fun ci' hci' => ?_, fun p hp => ?_⟩
    · obtain rfl := Option.some.inj hc'
      exact hc
    · obtain rfl := Option.some.inj hci'
      exact ⟨_, rfl, hci⟩
    · exact absurd hp (by simp [selectCityOp])
  | panelPlace h hsel hselci hp ih =>
    have hc := ih.1 _ hsel
    obtain ⟨c', hc', hci⟩ := ih.2.1 _ hselci
    rw [hsel] at hc'
    obtain rfl := Option.some.inj hc'
    refine ⟨fun c'' hc'' => ?_, fun ci' hci' => ?_, fun p' hp' => ?_⟩
    · obtain rfl := Option.some.inj hc''
      exact hc
    · obtain rfl := Option.some.inj hci'
      exact ⟨_, rfl, hci⟩
    · obtain rfl := Option.some.inj hp'
      exact ⟨_, _, rfl, rfl, hci, hp⟩
  | back h ih =>
    rename_i s
    rcases hp : s.sel.place with _ | p
    · rcases hci : s.sel.city with _ | ci
      · rw [handleBack_of_country hp hci]
        have hcf := handleClose_fields s
        refine ⟨fun c hc => ?_, fun ci' hci' => ?_, fun pp hpp => ?_⟩
        · rw [hcf.1] at hc
          exact absurd hc (by simp)
        · rw [hcf.1] at hci'
          exact absurd hci' (by simp)
        · rw [hcf.1] at hpp
          exact absurd hpp (by simp)
      · have hb := handleBack_of_city hp hci
        refine ⟨fun c hc => ?_, fun ci' hci' => ?_, fun pp hpp => ?_⟩
        · rw [hb.1] at hc
          exact ih.1 c hc
        · rw [hb.1] at hci'
          exact absurd hci' (by simp)
        · rw [hb.1] at hpp
          exact absurd hpp (by simp)
    · have hb := handleBack_of_place hp
      refine ⟨fun c hc => ?_, fun ci' hci' => ?_, fun pp hpp => ?_⟩
      · rw [hb.1] at hc
        exact ih.1 c hc
      · rw [hb.1] at hci'
        obtain ⟨c, hcc, hmem⟩ := ih.2.1 ci' hci'
        exact ⟨c, by rw [hb.1]; exact hcc, hmem⟩
      · rw [hb.1] at hpp
        exact absurd hpp (by simp)
  | close h ih =>
    rename_i s
    have hcf := handleClose_fields s
    refine ⟨fun c hc => ?_, fun ci' hci' => ?_, fun pp hpp => ?_⟩
    · rw [hcf.1] at hc
      exact absurd hc (by simp)
    · rw [hcf.1] at hci'
      exact absurd hci' (by simp)
    · rw [hcf.1] at hpp
      exact absurd hpp (by simp)
  | hoverE l h ih => simpa [hoverEnter_sel] using ih
  | hoverX l h ih => simpa [hoverExit_sel] using ih

/-- C8 witness: the invariant instantiated at the initial state. -/
theorem selection_nested_witness :
    (∀ c, initState.sel.country = some c → c ∈ dsAB) ∧
    (∀ ci, initState.sel.city = some ci → ∃ c, initState.sel.country = some c ∧ ci ∈ c.cities) ∧
    (∀ p, initState.sel.place = some p →
      ∃ c ci, initState.sel.country = some c ∧ initState.sel.city = some ci ∧
        ci ∈ c.cities ∧ p ∈ placesL ci) :=
  selection_nested dsAB (fun _ => 0) initState Reach.init

theorem default_ne_highlight : defaultStyle ≠ highlightStyle := by
  intro h
  have h1 : ((8 : ℚ)/100) = 2/10 := congrArg Style.fillOpacity h
  norm_num at h1

theorem hover_ne_highlight : hoverStyle ≠ highlightStyle := by
  intro h
  have h1 : ((3 : ℚ)/10) = 2/10 := congrArg Style.fillOpacity h
  norm_num at h1

/-- After `resetSelectedLayer`, no drawable carries the highlight style,
provided every highlighted drawable was the stored layer. -/
theorem resetSelectedLayer_no_highlight {s : MapState}
    (inv : ∀ l, s.styles l = highlightStyle → s.selectedLayer = some l) :
    ∀ l, (resetSelectedLayer s).styles l ≠ highlightStyle := by
  obtain ⟨sel0, slay, st⟩ := s
  intro l hl
  cases slay with
  | none =>
    simp only [resetSelectedLayer] at hl
    exact Option.noConfusion (inv l hl)
  | some l0 =>
    simp only [resetSelectedLayer] at hl
    by_cases hl0 : l = l0
    · subst hl0
      rw [Function.update_same] at hl
      exact default_ne_highlight hl
    · rw [Function.update_noteq hl0] at hl
      have hthis := inv l hl
      simp only at hthis
      exact hl0 (Option.some.inj hthis).symm

/-- The inductive style invariant over the country-level operations: any
drawable in the highlight style is the stored highlighted layer, and that
layer is the registry entry of the currently selected country. -/
theorem reachSel_styles_ok (ds : List CountrySub) (layerOf : String → ℕ)
    {s : MapState} (h : ReachSel ds layerOf s) :
    ∀ l, s.styles l = highlightStyle →
      s.selectedLayer = some l ∧ ∃ c, s.sel.country = some c ∧ layerOf c.id = l := by
  induction h with
  | init =>
    intro l hl
    exact absurd hl default_ne_highlight
  | country id h ih =>
    rename_i s
    intro l hl
    rcases hfind : countryMapGet ds id with _ | c
    · rw [selectCountryOp_not_found hfind] at hl ⊢
      exact ih l hl
    · have hslay : (selectCountryOp ds layerOf id s).selectedLayer = some (layerOf id) := by
        simp [selectCountryOp, hfind]
      have hsel := selectCountryOp_found layerOf s hfind
      by_cases hll : l = layerOf id
      · subst hll
        refine ⟨hslay, c, by rw [hsel], ?_⟩
        rw [(countryMapGet_mem hfind).2]
      · exfalso
        rcases hsl : s.selectedLayer with _ | l0
        · have hst : (selectCountryOp ds layerOf id s).styles
              = Function.update s.styles (layerOf id) highlightStyle := by
            simp [selectCountryOp, hfind, hsl]
          rw [hst, Function.update_noteq hll] at hl
          have hthis := (ih l hl).1
          rw [hsl] at hthis
          exact Option.noConfusion hthis
        · by_cases h0 : l0 = layerOf id
          · have hst : (selectCountryOp ds layerOf id s).styles
                = Function.update s.styles (layerOf id) highlightStyle := by
              simp [selectCountryOp, hfind, hsl, h0]
            rw [hst, Function.update_noteq hll] at hl
            have hthis := (ih l hl).1
            rw [hsl] at hthis
            exact hll ((Option.some.inj hthis).symm.trans h0)
          · have hst : (selectCountryOp ds layerOf id s).styles
                = Function.update (Function.update s.styles l0 defaultStyle)
                    (layerOf id) highlightStyle := by
              simp [selectCountryOp, hfind, hsl, h0]
            rw [hst, Function.update_noteq hll] at hl
            by_cases hl0 : l = l0
            · subst hl0
              rw [Function.update_same] at hl
              exact default_ne_highlight hl
            · rw [Function.update_noteq hl0] at hl
              have hthis := (ih l hl).1
              rw [hsl] at hthis
              exact hl0 (Option.some.inj hthis).symm
  | back h ih =>
    rename_i s
    intro l hl
    rcases hp : s.sel.place with _ | p
    · rcases hci : s.sel.city with _ | ci
      · rw [handleBack_of_country hp hci] at hl ⊢
        have hcf := handleClose_fields s
        rw [hcf.2.2] at hl
        exact absurd hl (resetSelectedLayer_no_highlight (fun l2 hl2 => (ih l2 hl2).1) l)
      · have hb := handleBack_of_city hp hci
        rw [hb.2.2] at hl
        obtain ⟨h1, c, h2, h3⟩ := ih l hl
        exact ⟨by rw [hb.2.1, h1], c, by rw [hb.1]; exact h2, h3⟩
    · have hb := handleBack_of_place hp
      rw [hb.2.2] at hl
      obtain ⟨h1, c, h2, h3⟩ := ih l hl
      exact ⟨by rw [hb.2.1, h1], c, by rw [hb.1]; exact h2, h3⟩
  | close h ih =>
    rename_i s
    intro l hl
    have hcf := handleClose_fields s
    rw [hcf.2.2] at hl
    exact absurd hl (resetSelectedLayer_no_highlight (fun l2 hl2 => (ih l2 hl2).1) l)
  | hoverE lh h ih =>
    rename_i s
    intro l hl
    unfold hoverEnter at hl ⊢
    by_cases hg : s.selectedLayer = some lh
    · rw [if_pos hg] at hl ⊢
      exact ih l hl
    · rw [if_neg hg] at hl ⊢
      simp only [] at hl ⊢
      by_cases hllh : l = lh
      · subst hllh
        rw [Function.update_same] at hl
        exact absurd hl hover_ne_highlight
      · rw [Function.update_noteq hllh] at hl
        exact ih l hl
  | hoverX lh h ih =>
    rename_i s
    intro l hl
    unfold hoverExit at hl ⊢
    by_cases hg : s.selectedLayer = some lh
    · rw [if_pos hg] at hl ⊢
      exact ih l hl
    · rw [if_neg hg] at hl ⊢
      simp only [] at hl ⊢
      by_cases hllh : l = lh
      · subst hllh
        rw [Function.update_same] at hl
        exact absurd hl default_ne_highlight
      · rw [Function.update_noteq hllh] at hl
        exact ih l hl

/-- C4: in every state reachable through selectCountry, back, close and
drawable hover enter/exit, at most one drawable carries the highlight
style and any highlighted drawable is the registry drawable of the
currently selected country; every style map a selectCountry call passes
through (before, after the old layer's reset, after the new highlight —
reset strictly first) also has at most one highlighted drawable; and the
hover handlers never change the style of the stored highlighted layer. -/
theorem country_highlight_exclusive (ds : List CountrySub) (layerOf : String → ℕ)
    (s : MapState) (h : ReachSel ds layerOf s) :
    (∀ l1 l2, s.styles l1 = highlightStyle → s.styles l2 = highlightStyle → l1 = l2) ∧
    (∀ l, s.styles l = highlightStyle →
      s.selectedLayer = some l ∧ ∃ c, s.sel.country = some c ∧ layerOf c.id = l) ∧
    (∀ id, ∀ m ∈ selectCountryTrace ds layerOf id s,
      ∀ l1 l2, m l1 = highlightStyle → m l2 = highlightStyle → l1 = l2) ∧
    (∀ l lh, s.selectedLayer = some l →
      (hoverEnter lh s).styles l = s.styles l ∧
      (hoverExit lh s).styles l = s.styles l) := by
  have inv := reachSel_styles_ok ds layerOf h
  have huniq : ∀ l1 l2, s.styles l1 = highlightStyle → s.styles l2 = highlightStyle →
      l1 = l2 := by
    intro l1 l2 h1 h2
    have a := (inv l1 h1).1
    have b := (inv l2 h2).1
    rw [a] at b
    exact Option.some.inj b
  have hupd : ∀ (f : ℕ → Style) (a : ℕ),
      (∀ x, f x = highlightStyle → x = a) →
      ∀ l1 l2, Function.update f a highlightStyle l1 = highlightStyle →
        Function.update f a highlightStyle l2 = highlightStyle → l1 = l2 := by
    intro f a hf l1 l2 h1 h2
    have e1 : l1 = a := by
      by_cases hcase : l1 = a
      · exact hcase
      · rw [Function.update_noteq hcase] at h1
        exact hf l1 h1
    have e2 : l2 = a := by
      by_cases hcase : l2 = a
      · exact hcase
      · rw [Function.update_noteq hcase] at h2
        exact hf l2 h2
    rw [e1, e2]
  refine ⟨huniq, inv, ?_, ?_⟩
  · intro id m hm l1 l2 h1 h2
    rcases hfind : countryMapGet ds id with _ | c
    · simp only [selectCountryTrace, hfind, List.mem_singleton] at hm
      subst hm
      exact huniq l1 l2 h1 h2
    · rcases hsl : s.selectedLayer with _ | l0
      · simp only [selectCountryTrace, hfind, hsl, List.mem_cons,
          List.not_mem_nil, or_false] at hm
        rcases hm with rfl | rfl
        · exact huniq l1 l2 h1 h2
        · refine hupd s.styles (layerOf id) (fun x hx => ?_) l1 l2 h1 h2
          have hcontra := (inv x hx).1
          rw [hsl] at hcontra
          exact absurd hcontra (by simp)
      · by_cases h0 : l0 ≠ layerOf id
        · simp only [selectCountryTrace, hfind, hsl, if_pos h0, List.mem_cons,
            List.not_mem_nil, or_false] at hm
          have hmid : ∀ x, Function.update s.styles l0 defaultStyle x = highlightStyle →
              False := by
            intro x hx
            by_cases hx0 : x = l0
            · subst hx0
              rw [Function.update_same] at hx
              exact default_ne_highlight hx
            · rw [Function.update_noteq hx0] at hx
              have hcontra := (inv x hx).1
              rw [hsl] at hcontra
              exact hx0 (Option.some.inj hcontra).symm
          rcases hm with rfl | rfl | rfl
          · exact huniq l1 l2 h1 h2
          · exact absurd h1 (fun hc => hmid l1 hc)
          · exact hupd _ (layerOf id) (fun x hx => absurd hx (fun hc => hmid x hc)) l1 l2 h1 h2
        · simp only [selectCountryTrace, hfind, hsl, if_neg h0, List.mem_cons,
            List.not_mem_nil, or_false] at hm
          have hl0 : l0 = layerOf id := not_not.mp h0
          rcases hm with rfl | rfl
          · exact huniq l1 l2 h1 h2
          · refine hupd s.styles (layerOf id) (fun x hx => ?_) l1 l2 h1 h2
            have hcontra := (inv x hx).1
            rw [hsl] at hcontra
            rw [← hl0]
            exact (Option.some.inj hcontra).symm
  · intro l lh hsl
    constructor
    · unfold hoverEnter
      by_cases hg : s.selectedLayer = some lh
      · rw [if_pos hg]
      · rw [if_neg hg]
        simp only []
        have hne : l ≠ lh := by
          intro hcase
          subst hcase
          exact hg hsl
        rw [Function.update_noteq hne]
    · unfold hoverExit
      by_cases hg : s.selectedLayer = some lh
      · rw [if_pos hg]
      · rw [if_neg hg]
        simp only []
        have hne : l ≠ lh := by
          intro hcase
          subst hcase
          exact hg hsl
        rw [Function.update_noteq hne]

/-- C4 witness: the property instantiated at the initial state. -/
theorem country_highlight_exclusive_witness :
    (∀ l1 l2, initState.styles l1 = highlightStyle →
      initState.styles l2 = highlightStyle → l1 = l2) ∧
    (∀ l, initState.styles l = highlightStyle →
      initState.selectedLayer = some l ∧
      ∃ c, initState.sel.country = some c ∧ (fun _ => 0) c.id = l) ∧
    (∀ id, ∀ m ∈ selectCountryTrace dsAB (fun _ => 0) id initState,
      ∀ l1 l2, m l1 = highlightStyle → m l2 = highlightStyle → l1 = l2) ∧
    (∀ l lh, initState.selectedLayer = some l →
      (hoverEnter lh initState).styles l = initState.styles l ∧
      (hoverExit lh initState).styles l = initState.styles l) :=
  country_highlight_exclusive dsAB (fun _ => 0) initState ReachSel.init

end MapOfReddit
